import Mathlib

/-!
Verification of the membership core of the Real-Time Event Check-In App.

The definitions below are a shallow embedding of the GraphQL resolvers in
`backend/src/index.ts` (`resolvers.Query.events`, `resolvers.Query.me`,
`resolvers.Mutation.joinEvent`, `resolvers.Mutation.leaveEvent`).  The
Prisma store (Users, Events and the many-to-many attendee relation) is
modelled as an explicit `Store` value; the cuid id generation of Prisma is
modelled by a fresh-id counter `nextUserId`; Socket.io emissions are
collected in an explicit list.
-/

namespace EventCheckIn

/-- A row of the `User` table: `{ id, name, email }`.  Prisma's cuid string
ids are modelled as naturals drawn from a fresh-id counter. -/
structure User where
  id : Nat
  name : String
  email : String
deriving Repr, DecidableEq

/-- A row of the `Event` table: `{ id, name, location, startTime }`.
`startTime` (a JS `Date`) is modelled as its epoch timestamp. -/
structure Event where
  id : String
  name : String
  location : String
  startTime : Int
deriving Repr, DecidableEq

/-- The Prisma database: the `User` rows, the `Event` rows and the
many-to-many attendee relation (edges `(eventId, userId)`), together with
the fresh-id counter used to model cuid generation. -/
structure Store where
  users : List User
  events : List Event
  membership : List (String × Nat)
  nextUserId : Nat
deriving Repr, DecidableEq

/-- A Socket.io emission.  `room = some r` models `io.to(r).emit(...)`,
`room = none` models the global `io.emit(...)`.  `channel` is the socket
event name (`"userJoined"`, `"userLeft"`, `"eventUpdated"`); the remaining
fields are the payload (`user = none` for the `{eventId, attendees}`
payload of `eventUpdated`). -/
structure Emission where
  room : Option String
  channel : String
  eventId : String
  user : Option User
  attendees : List User
deriving Repr, DecidableEq

/-- The error taxonomy of the resolvers:
`invalidInput` = `'Event ID and user email are required'` /
`'Valid email is required'`, `notFound` = `'Event not found'`,
`userNotFound` = `'User not found'`. -/
inductive Err where
  | invalidInput
  | notFound
  | userNotFound
deriving Repr, DecidableEq

instance {ε α : Type} [DecidableEq ε] [DecidableEq α] : DecidableEq (Except ε α) := fun a b =>
  match a, b with
  | .ok x, .ok y =>
    if h : x = y then .isTrue (by rw [h]) else .isFalse (by simp [h])
  | .error x, .error y =>
    if h : x = y then .isTrue (by rw [h]) else .isFalse (by simp [h])
  | .ok _, .error _ => .isFalse (by simp)
  | .error _, .ok _ => .isFalse (by simp)

/-- The GraphQL `Event` object returned by the resolvers: the event row
together with its included `attendees` list. -/
structure EventView where
  id : String
  name : String
  location : String
  startTime : Int
  attendees : List User
deriving Repr, DecidableEq

/-- Outcome of a mutation resolver: the GraphQL result (or thrown error),
the database after the call, and the Socket.io emissions, in order. -/
structure MutOut where
  result : Except Err EventView
  store : Store
  emits : List Emission
deriving Repr, DecidableEq

/-- Outcome of the `me` query resolver. -/
structure MeOut where
  result : Except Err User
  store : Store
deriving Repr, DecidableEq

/-- Prisma call `user.findUnique({ where: { email } })`. -/
def findUserByEmail (s : Store) (email : String) : Option User :=
  s.users.find? (fun u => u.email = email)

/-- Prisma call `event.findUnique({ where: { id: eventId } })`. -/
def findEventById (s : Store) (eventId : String) : Option Event :=
  s.events.find? (fun e => e.id = eventId)

/-- The `attendees` list included with an event: the users related to the
event through the membership relation. -/
def attendeesOf (s : Store) (eventId : String) : List User :=
  s.users.filter (fun u => (eventId, u.id) ∈ s.membership)

/-- An event row together with its current attendee list. -/
def eventView (s : Store) (e : Event) : EventView :=
  ⟨e.id, e.name, e.location, e.startTime, attendeesOf s e.id⟩

/-- JS `email.split('@')[0]`: the part of the string before the first
`'@'` (the whole string when no `'@'` occurs). -/
def localPart (email : String) : String :=
  String.mk (email.data.takeWhile (fun c => c ≠ '@'))

/-- JS `email.includes('@')`. -/
def containsAt (email : String) : Bool :=
  email.data.contains '@'

/-- One character of the JS regex class `[a-zA-Z0-9]`. -/
def isAsciiAlnum (c : Char) : Bool :=
  ('a' ≤ c && c ≤ 'z') || ('A' ≤ c && c ≤ 'Z') || ('0' ≤ c && c ≤ '9')

/-- JS `s.replace(/[^a-zA-Z0-9]/g, '')`. -/
def stripNonAlnum (s : String) : String :=
  String.mk (s.data.filter isAsciiAlnum)

/-- Prisma `connect`: add the membership edge unless it is already
present (the relation table has a composite primary key). -/
def connectEdge (m : List (String × Nat)) (eventId : String) (uid : Nat) :
    List (String × Nat) :=
  if (eventId, uid) ∈ m then m else m ++ [(eventId, uid)]

/-- Prisma `disconnect`: remove the membership edge. -/
def disconnectEdge (m : List (String × Nat)) (eventId : String) (uid : Nat) :
    List (String × Nat) :=
  m.filter (fun p => p ≠ (eventId, uid))

/-- The `// Find or create user` block of `joinEvent`: look the user up by
email and, when absent, `prisma.user.create({ data: { email, name:
userEmail.split('@')[0] } })`. -/
def findOrCreateUser (s : Store) (email : String) : User × Store :=
  match findUserByEmail s email with
  | some u => (u, s)
  | none =>
    let u : User := ⟨s.nextUserId, localPart email, email⟩
    (u, { s with users := s.users ++ [u], nextUserId := s.nextUserId + 1 })

/-- The room name `` `event-${eventId}` ``. -/
def roomOf (eventId : String) : String :=
  "event-" ++ eventId

/-- Resolver `resolvers.Query.me`: reject an empty email or an email without
`'@'`; return the existing user unchanged, or create one whose name is the
local part with all non-alphanumerics stripped, falling back to
`"User"`. -/
def me (s : Store) (email : String) : MeOut :=
  if email = "" ∨ containsAt email = false then ⟨.error .invalidInput, s⟩
  else
    match findUserByEmail s email with
    | some u => ⟨.ok u, s⟩
    | none =>
      let stripped := stripNonAlnum (localPart email)
      let name := if stripped = "" then "User" else stripped
      let u : User := ⟨s.nextUserId, name, email⟩
      ⟨.ok u, { s with users := s.users ++ [u], nextUserId := s.nextUserId + 1 }⟩

/-- Resolver `resolvers.Mutation.joinEvent`: validate inputs, require the event,
find-or-create the user, no-op when the email is already among the
attendees, otherwise connect the edge and emit `userJoined` to the event
room and `eventUpdated` globally, both carrying the post-join attendee
list. -/
def joinEvent (s : Store) (eventId userEmail : String) : MutOut :=
  if eventId = "" ∨ userEmail = "" then ⟨.error .invalidInput, s, []⟩
  else
    match findEventById s eventId with
    | none => ⟨.error .notFound, s, []⟩
    | some ev =>
      let existingAttendees := attendeesOf s eventId
      let us := findOrCreateUser s userEmail
      let isAlreadyJoined := existingAttendees.any (fun a => a.email = userEmail)
      if isAlreadyJoined then
        ⟨.ok ⟨ev.id, ev.name, ev.location, ev.startTime, existingAttendees⟩, us.2, []⟩
      else
        let s2 : Store := { us.2 with membership := connectEdge us.2.membership eventId us.1.id }
        let post := attendeesOf s2 eventId
        ⟨.ok ⟨ev.id, ev.name, ev.location, ev.startTime, post⟩, s2,
          [⟨some (roomOf eventId), "userJoined", eventId, some us.1, post⟩,
           ⟨none, "eventUpdated", eventId, none, post⟩]⟩

/-- Resolver `resolvers.Mutation.leaveEvent`: validate inputs, require the event,
require the user (never creates one), no-op when the email is not among
the attendees, otherwise disconnect the edge and emit `userLeft` to the
event room and `eventUpdated` globally. -/
def leaveEvent (s : Store) (eventId userEmail : String) : MutOut :=
  if eventId = "" ∨ userEmail = "" then ⟨.error .invalidInput, s, []⟩
  else
    match findEventById s eventId with
    | none => ⟨.error .notFound, s, []⟩
    | some ev =>
      let existingAttendees := attendeesOf s eventId
      match findUserByEmail s userEmail with
      | none => ⟨.error .userNotFound, s, []⟩
      | some user =>
        let isInEvent := existingAttendees.any (fun a => a.email = userEmail)
        if isInEvent then
          let s2 : Store := { s with membership := disconnectEdge s.membership eventId user.id }
          let post := attendeesOf s2 eventId
          ⟨.ok ⟨ev.id, ev.name, ev.location, ev.startTime, post⟩, s2,
            [⟨some (roomOf eventId), "userLeft", eventId, some user, post⟩,
             ⟨none, "eventUpdated", eventId, none, post⟩]⟩
        else
          ⟨.ok ⟨ev.id, ev.name, ev.location, ev.startTime, existingAttendees⟩, s, []⟩

/-- Resolver `resolvers.Query.events`: all events ordered ascending by
`startTime`, each with its included attendee list. -/
def eventsQuery (s : Store) : List EventView :=
  (s.events.mergeSort (fun a b => a.startTime ≤ b.startTime)).map (fun e => eventView s e)

/-- Store hygiene guaranteed by Prisma's id generation: every membership
edge references an already-allocated user id (below the fresh-id
counter). -/
def FreshIds (s : Store) : Prop :=
  ∀ p ∈ s.membership, p.2 < s.nextUserId

instance (s : Store) : Decidable (FreshIds s) := by
  unfold FreshIds
  infer_instance

/-! ### Basic lemmas about the store accessors -/

theorem mem_attendeesOf {s : Store} {eventId : String} {u : User} :
    u ∈ attendeesOf s eventId ↔ u ∈ s.users ∧ (eventId, u.id) ∈ s.membership := by
  simp [attendeesOf, List.mem_filter]

theorem findUserByEmail_eq_some {s : Store} {em : String} {u : User}
    (h : findUserByEmail s em = some u) : u ∈ s.users ∧ u.email = em :=
  ⟨List.mem_of_find?_eq_some h, by simpa using List.find?_some h⟩

theorem findUserByEmail_eq_none {s : Store} {em : String} :
    findUserByEmail s em = none ↔ ∀ u ∈ s.users, u.email ≠ em := by
  simp [findUserByEmail]

theorem any_email_iff {l : List User} {em : String} :
    l.any (fun a => a.email = em) = true ↔ ∃ a ∈ l, a.email = em := by
  simp

theorem findUserByEmail_isSome_of_any {s : Store} {eventId em : String}
    (h : (attendeesOf s eventId).any (fun a => a.email = em) = true) :
    ∃ u, findUserByEmail s em = some u := by
  obtain ⟨a, ha, hae⟩ := any_email_iff.mp h
  have hs : (s.users.find? (fun u => decide (u.email = em))).isSome := by
    rw [List.find?_isSome]
    exact ⟨a, (mem_attendeesOf.mp ha).1, by simp [hae]⟩
  obtain ⟨u, hu⟩ := Option.isSome_iff_exists.mp hs
  exact ⟨u, hu⟩

theorem findOrCreateUser_found {s : Store} {em : String} {u : User}
    (h : findUserByEmail s em = some u) : findOrCreateUser s em = (u, s) := by
  simp [findOrCreateUser, h]

theorem findOrCreateUser_create {s : Store} {em : String}
    (h : findUserByEmail s em = none) :
    findOrCreateUser s em =
      (⟨s.nextUserId, localPart em, em⟩,
       { s with users := s.users ++ [⟨s.nextUserId, localPart em, em⟩],
                nextUserId := s.nextUserId + 1 }) := by
  simp [findOrCreateUser, h]

theorem mem_connectEdge {m : List (String × Nat)} {eventId : String} {uid : Nat} :
    (eventId, uid) ∈ connectEdge m eventId uid := by
  unfold connectEdge
  split
  · assumption
  · simp

/-! ### Branch characterizations of the mutation resolvers -/

theorem joinEvent_invalid {s : Store} {eventId userEmail : String}
    (h : eventId = "" ∨ userEmail = "") :
    joinEvent s eventId userEmail = ⟨.error .invalidInput, s, []⟩ := by
  simp [joinEvent, h]

theorem joinEvent_noEvent {s : Store} {eventId userEmail : String}
    (hne : ¬(eventId = "" ∨ userEmail = ""))
    (hev : findEventById s eventId = none) :
    joinEvent s eventId userEmail = ⟨.error .notFound, s, []⟩ := by
  simp [joinEvent, hne, hev]

theorem joinEvent_already {s : Store} {eventId userEmail : String} {ev : Event}
    (hne : ¬(eventId = "" ∨ userEmail = ""))
    (hev : findEventById s eventId = some ev)
    (hany : (attendeesOf s eventId).any (fun a => a.email = userEmail) = true) :
    joinEvent s eventId userEmail =
      ⟨.ok ⟨ev.id, ev.name, ev.location, ev.startTime, attendeesOf s eventId⟩, s, []⟩ := by
  obtain ⟨u, hu⟩ := findUserByEmail_isSome_of_any hany
  simp [joinEvent, hne, hev, findOrCreateUser_found hu, hany]

theorem joinEvent_step {s s1 : Store} {eventId userEmail : String} {ev : Event} {u : User}
    (hne : ¬(eventId = "" ∨ userEmail = ""))
    (hev : findEventById s eventId = some ev)
    (huc : findOrCreateUser s userEmail = (u, s1))
    (hany : (attendeesOf s eventId).any (fun a => a.email = userEmail) = false) :
    joinEvent s eventId userEmail =
      ⟨.ok ⟨ev.id, ev.name, ev.location, ev.startTime,
          attendeesOf { s1 with membership := connectEdge s1.membership eventId u.id } eventId⟩,
        { s1 with membership := connectEdge s1.membership eventId u.id },
        [⟨some (roomOf eventId), "userJoined", eventId, some u,
            attendeesOf { s1 with membership := connectEdge s1.membership eventId u.id } eventId⟩,
         ⟨none, "eventUpdated", eventId, none,
            attendeesOf { s1 with membership := connectEdge s1.membership eventId u.id } eventId⟩]⟩ := by
  simp [joinEvent, hne, hev, huc, hany]

theorem leaveEvent_invalid {s : Store} {eventId userEmail : String}
    (h : eventId = "" ∨ userEmail = "") :
    leaveEvent s eventId userEmail = ⟨.error .invalidInput, s, []⟩ := by
  simp [leaveEvent, h]

theorem leaveEvent_noEvent {s : Store} {eventId userEmail : String}
    (hne : ¬(eventId = "" ∨ userEmail = ""))
    (hev : findEventById s eventId = none) :
    leaveEvent s eventId userEmail = ⟨.error .notFound, s, []⟩ := by
  simp [leaveEvent, hne, hev]

theorem leaveEvent_noUser {s : Store} {eventId userEmail : String} {ev : Event}
    (hne : ¬(eventId = "" ∨ userEmail = ""))
    (hev : findEventById s eventId = some ev)
    (hu : findUserByEmail s userEmail = none) :
    leaveEvent s eventId userEmail = ⟨.error .userNotFound, s, []⟩ := by
  simp [leaveEvent, hne, hev, hu]

theorem leaveEvent_noop {s : Store} {eventId userEmail : String} {ev : Event} {u : User}
    (hne : ¬(eventId = "" ∨ userEmail = ""))
    (hev : findEventById s eventId = some ev)
    (hu : findUserByEmail s userEmail = some u)
    (hany : (attendeesOf s eventId).any (fun a => a.email = userEmail) = false) :
    leaveEvent s eventId userEmail =
      ⟨.ok ⟨ev.id, ev.name, ev.location, ev.startTime, attendeesOf s eventId⟩, s, []⟩ := by
  simp [leaveEvent, hne, hev, hu, hany]

theorem leaveEvent_step {s : Store} {eventId userEmail : String} {ev : Event} {u : User}
    (hne : ¬(eventId = "" ∨ userEmail = ""))
    (hev : findEventById s eventId = some ev)
    (hu : findUserByEmail s userEmail = some u)
    (hany : (attendeesOf s eventId).any (fun a => a.email = userEmail) = true) :
    leaveEvent s eventId userEmail =
      ⟨.ok ⟨ev.id, ev.name, ev.location, ev.startTime,
          attendeesOf { s with membership := disconnectEdge s.membership eventId u.id } eventId⟩,
        { s with membership := disconnectEdge s.membership eventId u.id },
        [⟨some (roomOf eventId), "userLeft", eventId, some u,
            attendeesOf { s with membership := disconnectEdge s.membership eventId u.id } eventId⟩,
         ⟨none, "eventUpdated", eventId, none,
            attendeesOf { s with membership := disconnectEdge s.membership eventId u.id } eventId⟩]⟩ := by
  simp [leaveEvent, hne, hev, hu, hany]

/-! ### Claim theorems -/

/-- C1: `joinEvent` is idempotent.  When the email already belongs to an
attendee of the event, `joinEvent` returns the event's current state with
the attendee list unchanged, performs no store write and emits nothing;
and after any successful `joinEvent`, a second identical call returns the
very same event view (hence the same attendee set) and the same store,
with no emissions. -/
theorem joinEvent_idempotent (s : Store) (eventId userEmail : String) :
    (∀ ev : Event, eventId ≠ "" → userEmail ≠ "" →
        findEventById s eventId = some ev →
        (attendeesOf s eventId).any (fun a => a.email = userEmail) = true →
        joinEvent s eventId userEmail =
          ⟨.ok ⟨ev.id, ev.name, ev.location, ev.startTime, attendeesOf s eventId⟩, s, []⟩) ∧
    (∀ (v : EventView) (s' : Store) (L : List Emission),
        joinEvent s eventId userEmail = ⟨.ok v, s', L⟩ →
        joinEvent s' eventId userEmail = ⟨.ok v, s', []⟩) := by
  constructor
  · intro ev h1 h2 hev hany
    exact joinEvent_already (by simp [h1, h2]) hev hany
  · intro v s' L h
    by_cases hne : eventId = "" ∨ userEmail = ""
    · rw [joinEvent_invalid hne] at h
      exact absurd (congrArg MutOut.result h) (by simp)
    · cases hev : findEventById s eventId with
      | none =>
        rw [joinEvent_noEvent hne hev] at h
        exact absurd (congrArg MutOut.result h) (by simp)
      | some ev =>
        by_cases hany : (attendeesOf s eventId).any (fun a => a.email = userEmail) = true
        · rw [joinEvent_already hne hev hany] at h
          simp only [MutOut.mk.injEq, Except.ok.injEq] at h
          obtain ⟨hv, hs, hL⟩ := h
          subst hv; subst hs
          exact joinEvent_already hne hev hany
        · rw [Bool.not_eq_true] at hany
          cases hfc : findUserByEmail s userEmail with
          | some u =>
            rw [joinEvent_step hne hev (findOrCreateUser_found hfc) hany] at h
            simp only [MutOut.mk.injEq, Except.ok.injEq] at h
            obtain ⟨hv, hs, hL⟩ := h
            subst hv; subst hs
            refine joinEvent_already hne hev ?_
            refine any_email_iff.mpr ⟨u, mem_attendeesOf.mpr ⟨?_, mem_connectEdge⟩,
              (findUserByEmail_eq_some hfc).2⟩
            exact (findUserByEmail_eq_some hfc).1
          | none =>
            rw [joinEvent_step hne hev (findOrCreateUser_create hfc) hany] at h
            simp only [MutOut.mk.injEq, Except.ok.injEq] at h
            obtain ⟨hv, hs, hL⟩ := h
            subst hv; subst hs
            refine joinEvent_already hne hev ?_
            refine any_email_iff.mpr ⟨⟨s.nextUserId, localPart userEmail, userEmail⟩,
              mem_attendeesOf.mpr ⟨?_, mem_connectEdge⟩, rfl⟩
            exact List.mem_append_right _ (by simp)

/-- Concrete store for exercising the claim theorems: one user `bob` who
attends the single event `E1`. -/
def W1s : Store :=
  ⟨[⟨0, "bob", "bob@x.com"⟩], [⟨"E1", "Tech", "Hall", 0⟩], [("E1", 0)], 1⟩

/-- Witness for C1: at the concrete store `W1s`, joining `E1` with bob's
email (already a member) returns the unchanged event, and re-running the
call returns the same output. -/
theorem joinEvent_idempotent_witness :
    joinEvent W1s "E1" "bob@x.com" =
      ⟨.ok ⟨"E1", "Tech", "Hall", 0, attendeesOf W1s "E1"⟩, W1s, []⟩ :=
  (joinEvent_idempotent W1s "E1" "bob@x.com").2
    ⟨"E1", "Tech", "Hall", 0, attendeesOf W1s "E1"⟩ W1s []
    ((joinEvent_idempotent W1s "E1" "bob@x.com").1 ⟨"E1", "Tech", "Hall", 0⟩
      (by decide) (by decide) (by decide) (by decide))

/-- C3: `leaveEvent` error contract.  With non-empty inputs it fails with
`notFound` when the event does not exist, fails with `userNotFound` when
the event exists but no user has the email, and in every case leaves the
user table exactly as it was (it never creates a user). -/
theorem leaveEvent_error_contract (s : Store) (eventId userEmail : String)
    (h1 : eventId ≠ "") (h2 : userEmail ≠ "") :
    (findEventById s eventId = none →
       leaveEvent s eventId userEmail = ⟨.error .notFound, s, []⟩) ∧
    (∀ ev : Event, findEventById s eventId = some ev →
       findUserByEmail s userEmail = none →
       leaveEvent s eventId userEmail = ⟨.error .userNotFound, s, []⟩) ∧
    (leaveEvent s eventId userEmail).store.users = s.users := by
  have hne : ¬(eventId = "" ∨ userEmail = "") := by simp [h1, h2]
  refine ⟨fun hev => leaveEvent_noEvent hne hev,
          fun ev hev hu => leaveEvent_noUser hne hev hu, ?_⟩
  cases hev : findEventById s eventId with
  | none => rw [leaveEvent_noEvent hne hev]
  | some ev =>
    cases hu : findUserByEmail s userEmail with
    | none => rw [leaveEvent_noUser hne hev hu]
    | some u =>
      by_cases hany : (attendeesOf s eventId).any (fun a => a.email = userEmail) = true
      · rw [leaveEvent_step hne hev hu hany]
      · rw [Bool.not_eq_true] at hany
        rw [leaveEvent_noop hne hev hu hany]

/-- Witness for C3: at `W1s`, leaving the nonexistent event `EX` fails
with `notFound`, and leaving `E1` with an unknown email fails with
`userNotFound`. -/
theorem leaveEvent_error_contract_witness :
    leaveEvent W1s "EX" "bob@x.com" = ⟨.error .notFound, W1s, []⟩ ∧
    leaveEvent W1s "E1" "nobody@x.com" = ⟨.error .userNotFound, W1s, []⟩ :=
  ⟨(leaveEvent_error_contract W1s "EX" "bob@x.com" (by decide) (by decide)).1 (by decide),
   (leaveEvent_error_contract W1s "E1" "nobody@x.com" (by decide) (by decide)).2.1
     ⟨"E1", "Tech", "Hall", 0⟩ (by decide) (by decide)⟩

/-- C4: `leaveEvent` non-member no-op.  When the event exists and a user
record exists for the email but the user is not among the attendees, the
call succeeds with the event's current state, writes nothing and emits
nothing — a success, unlike the `userNotFound` failure. -/
theorem leaveEvent_nonmember (s : Store) (eventId userEmail : String) (ev : Event) (u : User)
    (h1 : eventId ≠ "") (h2 : userEmail ≠ "")
    (hev : findEventById s eventId = some ev)
    (hu : findUserByEmail s userEmail = some u)
    (hnm : (attendeesOf s eventId).any (fun a => a.email = userEmail) = false) :
    leaveEvent s eventId userEmail =
      ⟨.ok ⟨ev.id, ev.name, ev.location, ev.startTime, attendeesOf s eventId⟩, s, []⟩ :=
  leaveEvent_noop (by simp [h1, h2]) hev hu hnm

/-- Concrete store with a registered user (`carol`) who is not an
attendee of the event. -/
def W4s : Store :=
  ⟨[⟨0, "bob", "bob@x.com"⟩, ⟨1, "carol", "carol@x.com"⟩],
   [⟨"E1", "Tech", "Hall", 0⟩], [("E1", 0)], 2⟩

/-- Witness for C4: carol exists but is not attending `E1`; leaving is a
successful no-op. -/
theorem leaveEvent_nonmember_witness :
    leaveEvent W4s "E1" "carol@x.com" =
      ⟨.ok ⟨"E1", "Tech", "Hall", 0, attendeesOf W4s "E1"⟩, W4s, []⟩ :=
  leaveEvent_nonmember W4s "E1" "carol@x.com" ⟨"E1", "Tech", "Hall", 0⟩
    ⟨1, "carol", "carol@x.com"⟩ (by decide) (by decide) (by decide) (by decide) (by decide)

/-- C5: broadcast correctness of `joinEvent`.  A successful
state-changing call emits exactly one `userJoined` message to the
per-event room and one `eventUpdated` message to the global topic, in
that order, each carrying the post-join attendee list; a call where the
email already belongs to an attendee emits nothing. -/
theorem joinEvent_broadcast (s : Store) (eventId userEmail : String) :
    ∀ (v : EventView) (s' : Store) (L : List Emission),
      joinEvent s eventId userEmail = ⟨.ok v, s', L⟩ →
      (((attendeesOf s eventId).any (fun a => a.email = userEmail) = false →
         L = [⟨some (roomOf eventId), "userJoined", eventId,
                some (findOrCreateUser s userEmail).1, v.attendees⟩,
              ⟨none, "eventUpdated", eventId, none, v.attendees⟩]) ∧
       ((attendeesOf s eventId).any (fun a => a.email = userEmail) = true → L = [])) := by
  intro v s' L h
  by_cases hne : eventId = "" ∨ userEmail = ""
  · rw [joinEvent_invalid hne] at h
    exact absurd (congrArg MutOut.result h) (by simp)
  · cases hev : findEventById s eventId with
    | none =>
      rw [joinEvent_noEvent hne hev] at h
      exact absurd (congrArg MutOut.result h) (by simp)
    | some ev =>
      by_cases hany : (attendeesOf s eventId).any (fun a => a.email = userEmail) = true
      · rw [joinEvent_already hne hev hany] at h
        simp only [MutOut.mk.injEq, Except.ok.injEq] at h
        exact ⟨fun hf => absurd hany (by simp [hf]), fun _ => h.2.2.symm⟩
      · rw [Bool.not_eq_true] at hany
        cases hfc : findUserByEmail s userEmail with
        | some u =>
          rw [joinEvent_step hne hev (findOrCreateUser_found hfc) hany] at h
          simp only [MutOut.mk.injEq, Except.ok.injEq] at h
          obtain ⟨hv, hs, hL⟩ := h
          subst hv
          refine ⟨fun _ => ?_, fun ht => absurd hany (by simp [ht])⟩
          rw [← hL, findOrCreateUser_found hfc]
        | none =>
          rw [joinEvent_step hne hev (findOrCreateUser_create hfc) hany] at h
          simp only [MutOut.mk.injEq, Except.ok.injEq] at h
          obtain ⟨hv, hs, hL⟩ := h
          subst hv
          refine ⟨fun _ => ?_, fun ht => absurd hany (by simp [ht])⟩
          rw [← hL, findOrCreateUser_create hfc]

/-- Witness for C5: joining `E1` at `W1s` with a fresh email emits the
`userJoined` and `eventUpdated` pair carrying the post-join attendees. -/
theorem joinEvent_broadcast_witness :
    (joinEvent W1s "E1" "dana@x.com").emits =
      [⟨some (roomOf "E1"), "userJoined", "E1", some (findOrCreateUser W1s "dana@x.com").1,
         (⟨"E1", "Tech", "Hall", 0,
            attendeesOf (joinEvent W1s "E1" "dana@x.com").store "E1"⟩ : EventView).attendees⟩,
       ⟨none, "eventUpdated", "E1", none,
         (⟨"E1", "Tech", "Hall", 0,
            attendeesOf (joinEvent W1s "E1" "dana@x.com").store "E1"⟩ : EventView).attendees⟩] :=
  (joinEvent_broadcast W1s "E1" "dana@x.com"
    ⟨"E1", "Tech", "Hall", 0, attendeesOf (joinEvent W1s "E1" "dana@x.com").store "E1"⟩
    (joinEvent W1s "E1" "dana@x.com").store
    (joinEvent W1s "E1" "dana@x.com").emits (by decide)).1 (by decide)

/-- C10: error atomicity.  Whenever `joinEvent` or `leaveEvent` fails,
the store is returned exactly unchanged and nothing is emitted; in
particular a `joinEvent` on a nonexistent event id fails with `notFound`
before the create-if-absent user lookup, so no user is ever created. -/
theorem mutation_error_atomicity (s : Store) (eventId userEmail : String) :
    (∀ e : Err, (joinEvent s eventId userEmail).result = .error e →
       joinEvent s eventId userEmail = ⟨.error e, s, []⟩) ∧
    (∀ e : Err, (leaveEvent s eventId userEmail).result = .error e →
       leaveEvent s eventId userEmail = ⟨.error e, s, []⟩) ∧
    (eventId ≠ "" → userEmail ≠ "" → findEventById s eventId = none →
       joinEvent s eventId userEmail = ⟨.error .notFound, s, []⟩) := by
  refine ⟨?_, ?_, fun h1 h2 hev => joinEvent_noEvent (by simp [h1, h2]) hev⟩
  · intro e h
    by_cases hne : eventId = "" ∨ userEmail = ""
    · rw [joinEvent_invalid hne] at h ⊢
      cases h; rfl
    · cases hev : findEventById s eventId with
      | none =>
        rw [joinEvent_noEvent hne hev] at h ⊢
        cases h; rfl
      | some ev =>
        by_cases hany : (attendeesOf s eventId).any (fun a => a.email = userEmail) = true
        · rw [joinEvent_already hne hev hany] at h
          exact absurd h (by simp)
        · rw [Bool.not_eq_true] at hany
          cases hfc : findUserByEmail s userEmail with
          | some u =>
            rw [joinEvent_step hne hev (findOrCreateUser_found hfc) hany] at h
            exact absurd h (by simp)
          | none =>
            rw [joinEvent_step hne hev (findOrCreateUser_create hfc) hany] at h
            exact absurd h (by simp)
  · intro e h
    by_cases hne : eventId = "" ∨ userEmail = ""
    · rw [leaveEvent_invalid hne] at h ⊢
      cases h; rfl
    · cases hev : findEventById s eventId with
      | none =>
        rw [leaveEvent_noEvent hne hev] at h ⊢
        cases h; rfl
      | some ev =>
        cases hu : findUserByEmail s userEmail with
        | none =>
          rw [leaveEvent_noUser hne hev hu] at h ⊢
          cases h; rfl
        | some u =>
          by_cases hany : (attendeesOf s eventId).any (fun a => a.email = userEmail) = true
          · rw [leaveEvent_step hne hev hu hany] at h
            exact absurd h (by simp)
          · rw [Bool.not_eq_true] at hany
            rw [leaveEvent_noop hne hev hu hany] at h
            exact absurd h (by simp)

/-- Witness for C10: joining the nonexistent event `EX` at `W4s` with a
never-seen email fails with `notFound` and hands back the untouched
store (no user created), and the empty-input call fails atomically with
`invalidInput`. -/
theorem mutation_error_atomicity_witness :
    joinEvent W4s "EX" "ghost@x.com" = ⟨.error .notFound, W4s, []⟩ ∧
    leaveEvent W4s "" "bob@x.com" = ⟨.error .invalidInput, W4s, []⟩ :=
  ⟨(mutation_error_atomicity W4s "EX" "ghost@x.com").2.2 (by decide) (by decide) (by decide),
   (mutation_error_atomicity W4s "" "bob@x.com").2.1 .invalidInput (by decide)⟩

/-- C6: the `me` / get-or-create-user contract.  The query fails with
`invalidInput` exactly when the email is empty or has no `'@'`; on a hit
it returns the stored user unchanged with no write; on a miss it creates
a user named by the email's local part stripped of non-alphanumerics,
falling back to the literal `"User"` when stripping empties the name. -/
theorem me_contract (s : Store) (email : String) :
    ((me s email).result = .error .invalidInput ↔ (email = "" ∨ containsAt email = false)) ∧
    (∀ u : User, findUserByEmail s email = some u →
       ¬(email = "" ∨ containsAt email = false) → me s email = ⟨.ok u, s⟩) ∧
    (findUserByEmail s email = none → ¬(email = "" ∨ containsAt email = false) →
       me s email =
         ⟨.ok ⟨s.nextUserId,
             if stripNonAlnum (localPart email) = "" then "User"
             else stripNonAlnum (localPart email), email⟩,
          { s with
             users := s.users ++ [⟨s.nextUserId,
               if stripNonAlnum (localPart email) = "" then "User"
               else stripNonAlnum (localPart email), email⟩],
             nextUserId := s.nextUserId + 1 }⟩) := by
  refine ⟨?_, fun u hu hval => by simp [me, hval, hu], fun hn hval => by simp [me, hval, hn]⟩
  by_cases hbad : email = "" ∨ containsAt email = false
  · simp [me, hbad]
  · cases hfc : findUserByEmail s email with
    | some u => simp [me, hbad, hfc]
    | none => simp [me, hbad, hfc]

/-- Witness for C6: `me` rejects an email without `'@'` and, for a fresh
dotted email, creates a user with the stripped name. -/
theorem me_contract_witness :
    (me W4s "not-an-email").result = .error .invalidInput ∧
    me W4s "a.b@x.com" =
      ⟨.ok ⟨2, if stripNonAlnum (localPart "a.b@x.com") = "" then "User"
               else stripNonAlnum (localPart "a.b@x.com"), "a.b@x.com"⟩,
       { W4s with
          users := W4s.users ++ [⟨2, if stripNonAlnum (localPart "a.b@x.com") = "" then "User"
            else stripNonAlnum (localPart "a.b@x.com"), "a.b@x.com"⟩],
          nextUserId := 3 }⟩ :=
  ⟨(me_contract W4s "not-an-email").1.mpr (by decide),
   (me_contract W4s "a.b@x.com").2.2 (by decide) (by decide)⟩

/-- Store with one event and no users, for exercising the create paths. -/
def W7s : Store := ⟨[], [⟨"E1", "Tech", "Hall", 0⟩], [], 0⟩

/-- C7: name-derivation asymmetry.  When `joinEvent` has to create the
user it names it with the email's literal local part — no character
stripping, no `"User"` fallback — and for the dotted email
`"a.b@x.com"` this differs from the name the `me` query would create. -/
theorem joinEvent_name_asymmetry :
    (∀ (s : Store) (eventId userEmail : String) (ev : Event),
        eventId ≠ "" → userEmail ≠ "" →
        findEventById s eventId = some ev →
        findUserByEmail s userEmail = none →
        (joinEvent s eventId userEmail).store.users =
          s.users ++ [⟨s.nextUserId, localPart userEmail, userEmail⟩]) ∧
    ((joinEvent W7s "E1" "a.b@x.com").store.users.map User.name = ["a.b"] ∧
     (me W7s "a.b@x.com").store.users.map User.name = ["ab"] ∧
     ("a.b" : String) ≠ "ab") := by
  constructor
  · intro s eventId userEmail ev h1 h2 hev hfc
    have hne : ¬(eventId = "" ∨ userEmail = "") := by simp [h1, h2]
    have hany : (attendeesOf s eventId).any (fun a => a.email = userEmail) = false := by
      rw [← Bool.not_eq_true]
      intro hx
      obtain ⟨a, ha, hae⟩ := any_email_iff.mp hx
      exact (findUserByEmail_eq_none.mp hfc) a (mem_attendeesOf.mp ha).1 hae
    rw [joinEvent_step hne hev (findOrCreateUser_create hfc) hany]
  · exact ⟨by decide, by decide, by decide⟩

/-- Witness for C7: at the empty-user store, joining with a fresh dotted
email appends exactly the user named by the literal local part. -/
theorem joinEvent_name_asymmetry_witness :
    (joinEvent W7s "E1" "x.y@z.com").store.users =
      W7s.users ++ [⟨W7s.nextUserId, localPart "x.y@z.com", "x.y@z.com"⟩] :=
  joinEvent_name_asymmetry.1 W7s "E1" "x.y@z.com" ⟨"E1", "Tech", "Hall", 0⟩
    (by decide) (by decide) (by decide) (by decide)

theorem mem_connectEdge_iff {m : List (String × Nat)} {eventId : String} {uid : Nat}
    {q : String × Nat} :
    q ∈ connectEdge m eventId uid ↔ (q ∈ m ∨ q = (eventId, uid)) := by
  unfold connectEdge
  split
  · rename_i hm
    exact ⟨Or.inl, fun h => h.elim id (fun hq => hq ▸ hm)⟩
  · simp

theorem mem_disconnectEdge_iff {m : List (String × Nat)} {eventId : String} {uid : Nat}
    {q : String × Nat} :
    q ∈ disconnectEdge m eventId uid ↔ (q ∈ m ∧ q ≠ (eventId, uid)) := by
  simp [disconnectEdge, List.mem_filter]

/-- C8: frame condition.  `joinEvent` and `leaveEvent` mutate only the
membership relation of the targeted event: the event table (hence every
event's name, location and start time) is untouched, every pre-existing
user record is preserved (`joinEvent` at most appends one new user,
`leaveEvent` changes nothing), and the attendee set of every other event
is unchanged. -/
theorem membership_frame (s : Store) (eventId userEmail : String) (hf : FreshIds s) :
    ((joinEvent s eventId userEmail).store.events = s.events ∧
     (∃ t : List User, (joinEvent s eventId userEmail).store.users = s.users ++ t) ∧
     (∀ eid : String, eid ≠ eventId →
        attendeesOf (joinEvent s eventId userEmail).store eid = attendeesOf s eid)) ∧
    ((leaveEvent s eventId userEmail).store.events = s.events ∧
     (leaveEvent s eventId userEmail).store.users = s.users ∧
     (∀ eid : String, eid ≠ eventId →
        attendeesOf (leaveEvent s eventId userEmail).store eid = attendeesOf s eid)) := by
  constructor
  · by_cases hne : eventId = "" ∨ userEmail = ""
    · rw [joinEvent_invalid hne]
      exact ⟨rfl, ⟨[], by simp⟩, fun _ _ => rfl⟩
    · cases hev : findEventById s eventId with
      | none =>
        rw [joinEvent_noEvent hne hev]
        exact ⟨rfl, ⟨[], by simp⟩, fun _ _ => rfl⟩
      | some ev =>
        by_cases hany : (attendeesOf s eventId).any (fun a => a.email = userEmail) = true
        · rw [joinEvent_already hne hev hany]
          exact ⟨rfl, ⟨[], by simp⟩, fun _ _ => rfl⟩
        · rw [Bool.not_eq_true] at hany
          cases hfc : findUserByEmail s userEmail with
          | some u =>
            rw [joinEvent_step hne hev (findOrCreateUser_found hfc) hany]
            refine ⟨rfl, ⟨[], by simp⟩, fun eid hne' => ?_⟩
            unfold attendeesOf
            refine List.filter_congr fun a _ => ?_
            refine decide_eq_decide.mpr ?_
            rw [mem_connectEdge_iff]
            simp [Prod.ext_iff, hne']
          | none =>
            rw [joinEvent_step hne hev (findOrCreateUser_create hfc) hany]
            refine ⟨rfl, ⟨[⟨s.nextUserId, localPart userEmail, userEmail⟩], rfl⟩,
              fun eid hne' => ?_⟩
            unfold attendeesOf
            show (s.users ++ [(⟨s.nextUserId, localPart userEmail, userEmail⟩ : User)]).filter _ = _
            rw [List.filter_append]
            have h2 : [(⟨s.nextUserId, localPart userEmail, userEmail⟩ : User)].filter
                (fun u => decide ((eid, u.id) ∈
                  connectEdge s.membership eventId s.nextUserId)) = [] := by
              have hnm : ¬ ((eid, s.nextUserId) ∈
                  connectEdge s.membership eventId s.nextUserId) := by
                rw [mem_connectEdge_iff]
                rintro (hmem | hq)
                · exact Nat.lt_irrefl _ (hf _ hmem)
                · exact hne' (congrArg Prod.fst hq)
              simp [hnm]
            rw [h2, List.append_nil]
            refine List.filter_congr fun a _ => ?_
            refine decide_eq_decide.mpr ?_
            rw [mem_connectEdge_iff]
            simp [Prod.ext_iff, hne']
  · by_cases hne : eventId = "" ∨ userEmail = ""
    · rw [leaveEvent_invalid hne]
      exact ⟨rfl, rfl, fun _ _ => rfl⟩
    · cases hev : findEventById s eventId with
      | none =>
        rw [leaveEvent_noEvent hne hev]
        exact ⟨rfl, rfl, fun _ _ => rfl⟩
      | some ev =>
        cases hu : findUserByEmail s userEmail with
        | none =>
          rw [leaveEvent_noUser hne hev hu]
          exact ⟨rfl, rfl, fun _ _ => rfl⟩
        | some u =>
          by_cases hany : (attendeesOf s eventId).any (fun a => a.email = userEmail) = true
          · rw [leaveEvent_step hne hev hu hany]
            refine ⟨rfl, rfl, fun eid hne' => ?_⟩
            unfold attendeesOf
            refine List.filter_congr fun a _ => ?_
            refine decide_eq_decide.mpr ?_
            rw [mem_disconnectEdge_iff]
            simp [Prod.ext_iff, hne']
          · rw [Bool.not_eq_true] at hany
            rw [leaveEvent_noop hne hev hu hany]
            exact ⟨rfl, rfl, fun _ _ => rfl⟩

/-- Witness for C8: joining `E1` at `W4s` with a fresh email leaves the
event table and the attendee set of the other event id `E2` unchanged,
and so does leaving `E1`. -/
theorem membership_frame_witness :
    (joinEvent W4s "E1" "dave@x.com").store.events = W4s.events ∧
    attendeesOf (joinEvent W4s "E1" "dave@x.com").store "E2" = attendeesOf W4s "E2" ∧
    attendeesOf (leaveEvent W4s "E1" "bob@x.com").store "E2" = attendeesOf W4s "E2" :=
  ⟨(membership_frame W4s "E1" "dave@x.com" (by decide)).1.1,
   (membership_frame W4s "E1" "dave@x.com" (by decide)).1.2.2 "E2" (by decide),
   (membership_frame W4s "E1" "bob@x.com" (by decide)).2.2.2 "E2" (by decide)⟩

/-- C9: the `events` query returns all stored events, sorted ascending by
`startTime`, each carrying its full current attendee list. -/
theorem eventsQuery_spec (s : Store) :
    (eventsQuery s).Perm (s.events.map (fun e => eventView s e)) ∧
    (eventsQuery s).Pairwise (fun a b => a.startTime ≤ b.startTime) ∧
    (∀ v : EventView, v ∈ eventsQuery s → v.attendees = attendeesOf s v.id) := by
  refine ⟨?_, ?_, ?_⟩
  · exact List.Perm.map _ (List.mergeSort_perm s.events _)
  · have hs : (s.events.mergeSort (fun a b => a.startTime ≤ b.startTime)).Pairwise
        (fun a b : Event => decide (a.startTime ≤ b.startTime) = true) :=
      List.sorted_mergeSort
        (fun a b c h1 h2 => by
          simp only [decide_eq_true_eq] at h1 h2 ⊢
          omega)
        (fun a b => by
          simp only [Bool.or_eq_true, decide_eq_true_eq]
          exact Int.le_total _ _)
        s.events
    unfold eventsQuery
    rw [List.pairwise_map]
    exact hs.imp (fun h => by simpa using h)
  · intro v hv
    unfold eventsQuery at hv
    rw [List.mem_map] at hv
    obtain ⟨e, _, rfl⟩ := hv
    rfl

/-- Witness for C9: the single stored event of `W1s` appears in the query
output with exactly its current attendee list. -/
theorem eventsQuery_spec_witness :
    (eventView W1s ⟨"E1", "Tech", "Hall", 0⟩).attendees =
      attendeesOf W1s (eventView W1s ⟨"E1", "Tech", "Hall", 0⟩).id :=
  (eventsQuery_spec W1s).2.2 (eventView W1s ⟨"E1", "Tech", "Hall", 0⟩)
    (by simp [eventsQuery, W1s])

theorem connectEdge_not_mem {m : List (String × Nat)} {eventId : String} {uid : Nat}
    (h : (eventId, uid) ∉ m) : connectEdge m eventId uid = m ++ [(eventId, uid)] := by
  simp [connectEdge, h]

theorem disconnect_connect {m : List (String × Nat)} {eventId : String} {uid : Nat}
    (h : (eventId, uid) ∉ m) :
    disconnectEdge (connectEdge m eventId uid) eventId uid = m := by
  rw [connectEdge_not_mem h]
  unfold disconnectEdge
  rw [List.filter_append]
  have h1 : m.filter (fun p => decide (p ≠ (eventId, uid))) = m :=
    List.filter_eq_self.mpr (fun a ha => by
      simp only [decide_eq_true_eq]
      exact fun he => h (he ▸ ha))
  rw [h1]
  simp

/-- Store whose single user `eve` is already attending the single
event; the input on which the round-trip claim fails. -/
def W2s : Store :=
  ⟨[⟨0, "eve", "eve@x.com"⟩], [⟨"E1", "Tech", "Hall", 0⟩], [("E1", 0)], 1⟩

/-- Counterexample to C2 as stated: with `eve` already a member of `E1`,
`joinEvent` is a successful no-op, the subsequent `leaveEvent` removes
her, and the final attendee set is empty — not the pre-join set. -/
theorem joinLeave_roundtrip_cex :
    (joinEvent W2s "E1" "eve@x.com").result =
      .ok ⟨"E1", "Tech", "Hall", 0, [⟨0, "eve", "eve@x.com"⟩]⟩ ∧
    (leaveEvent (joinEvent W2s "E1" "eve@x.com").store "E1" "eve@x.com").result =
      .ok ⟨"E1", "Tech", "Hall", 0, []⟩ ∧
    attendeesOf (leaveEvent (joinEvent W2s "E1" "eve@x.com").store "E1" "eve@x.com").store "E1"
      ≠ attendeesOf W2s "E1" := by decide

/-- C2 (amended): for valid inputs — existing event, non-empty inputs, a
store whose membership edges reference only already-allocated user ids —
and an email that is NOT already among the event's attendees, `joinEvent`
followed immediately by `leaveEvent` on the same pair succeeds and
returns the event to exactly its pre-join attendee set. -/
theorem joinLeave_roundtrip (s : Store) (eventId userEmail : String) (ev : Event)
    (hf : FreshIds s) (h1 : eventId ≠ "") (h2 : userEmail ≠ "")
    (hev : findEventById s eventId = some ev)
    (hnm : (attendeesOf s eventId).any (fun a => a.email = userEmail) = false) :
    (joinEvent s eventId userEmail).result.isOk = true ∧
    (leaveEvent (joinEvent s eventId userEmail).store eventId userEmail).result.isOk = true ∧
    attendeesOf (leaveEvent (joinEvent s eventId userEmail).store eventId userEmail).store
      eventId = attendeesOf s eventId ∧
    (∀ w : EventView,
       (leaveEvent (joinEvent s eventId userEmail).store eventId userEmail).result = .ok w →
       w.attendees = attendeesOf s eventId) := by
  have hne : ¬(eventId = "" ∨ userEmail = "") := by simp [h1, h2]
  cases hfc : findUserByEmail s userEmail with
  | some u =>
    obtain ⟨hmem, hemail⟩ := findUserByEmail_eq_some hfc
    have hedge : (eventId, u.id) ∉ s.membership := by
      intro hmm
      have hx : (attendeesOf s eventId).any (fun a => a.email = userEmail) = true :=
        any_email_iff.mpr ⟨u, mem_attendeesOf.mpr ⟨hmem, hmm⟩, hemail⟩
      rw [hx] at hnm
      cases hnm
    rw [joinEvent_step hne hev (findOrCreateUser_found hfc) hnm]
    have hany1 : (attendeesOf
        { s with membership := connectEdge s.membership eventId u.id } eventId).any
        (fun a => a.email = userEmail) = true :=
      any_email_iff.mpr ⟨u, mem_attendeesOf.mpr ⟨hmem, mem_connectEdge⟩, hemail⟩
    rw [show leaveEvent { s with membership := connectEdge s.membership eventId u.id }
          eventId userEmail = _ from leaveEvent_step hne hev hfc hany1]
    have key : attendeesOf
        { s with membership :=
            disconnectEdge (connectEdge s.membership eventId u.id) eventId u.id } eventId =
        attendeesOf s eventId := by
      rw [disconnect_connect hedge]
    exact ⟨rfl, rfl, key, fun w hw => by cases hw; exact key⟩
  | none =>
    have hedge : (eventId, s.nextUserId) ∉ s.membership :=
      fun hmm => Nat.lt_irrefl _ (hf _ hmm)
    rw [joinEvent_step hne hev (findOrCreateUser_create hfc) hnm]
    have hfc1 : findUserByEmail
        { s with users := s.users ++ [⟨s.nextUserId, localPart userEmail, userEmail⟩],
                 nextUserId := s.nextUserId + 1 } userEmail =
        some ⟨s.nextUserId, localPart userEmail, userEmail⟩ := by
      show (s.users ++ [(⟨s.nextUserId, localPart userEmail, userEmail⟩ : User)]).find?
          (fun u => u.email = userEmail) = _
      rw [List.find?_append, show s.users.find? (fun u => decide (u.email = userEmail)) = none
        from hfc]
      simp [List.find?]
    have hany1 : (attendeesOf
        { s with users := s.users ++ [⟨s.nextUserId, localPart userEmail, userEmail⟩],
                 nextUserId := s.nextUserId + 1,
                 membership := connectEdge s.membership eventId s.nextUserId } eventId).any
        (fun a => a.email = userEmail) = true :=
      any_email_iff.mpr ⟨⟨s.nextUserId, localPart userEmail, userEmail⟩,
        mem_attendeesOf.mpr ⟨List.mem_append_right _ (by simp), mem_connectEdge⟩, rfl⟩
    rw [show leaveEvent
          { s with users := s.users ++ [⟨s.nextUserId, localPart userEmail, userEmail⟩],
                   nextUserId := s.nextUserId + 1,
                   membership := connectEdge s.membership eventId s.nextUserId }
          eventId userEmail = _ from leaveEvent_step hne hev hfc1 hany1]
    have key : attendeesOf
        { s with users := s.users ++ [⟨s.nextUserId, localPart userEmail, userEmail⟩],
                 nextUserId := s.nextUserId + 1,
                 membership :=
                   disconnectEdge (connectEdge s.membership eventId s.nextUserId)
                     eventId s.nextUserId } eventId =
        attendeesOf s eventId := by
      rw [disconnect_connect hedge]
      show (s.users ++ [(⟨s.nextUserId, localPart userEmail, userEmail⟩ : User)]).filter
          (fun u => (eventId, u.id) ∈ s.membership) = _
      rw [List.filter_append]
      have h2 : [(⟨s.nextUserId, localPart userEmail, userEmail⟩ : User)].filter
          (fun u => decide ((eventId, u.id) ∈ s.membership)) = [] := by
        simp [hedge]
      rw [h2, List.append_nil]
      rfl
    exact ⟨rfl, rfl, key, fun w hw => by cases hw; exact key⟩

/-- Witness for the amended C2: carol (registered, not a member) joins
and immediately leaves `E1`; the attendee set returns to its pre-join
value. -/
theorem joinLeave_roundtrip_witness :
    attendeesOf (leaveEvent (joinEvent W4s "E1" "carol@x.com").store "E1" "carol@x.com").store
      "E1" = attendeesOf W4s "E1" :=
  (joinLeave_roundtrip W4s "E1" "carol@x.com" ⟨"E1", "Tech", "Hall", 0⟩
    (by decide) (by decide) (by decide) (by decide) (by decide)).2.2.1

end EventCheckIn
